import Mathlib

/-!
Verification of the Batch Dispatch & Status Tracking Engine of the
bulk-email-sender repository.

The definitions below are a shallow embedding of the TypeScript source:

* `replaceVariables` (and its helpers) embeds
  `src/utils/emailHelpers.ts`, function `replaceVariables`.
* `sendEmailBatch`, `sendHandler` (source name `handler` in the send API
  module), `processBatchAsync`, `getBatchResults`, `cleanupOldBatches`
  embed the send API module (the third document of `src/unnamed/part_001`).
* `statusHandler` (source name `handler` in the status API module) embeds
  the status endpoint (the first document of `src/unnamed/part_001`).

Modelling conventions:

* JavaScript strings are Lean `String`s; `undefined`/`null` values are
  `Option.none`; a Map is an association list (`Store`).
* JavaScript truthiness of a string value is "present and nonempty".
* Asynchrony: the send handler fires `processBatchAsync` without awaiting
  it, so the handler and the background loop are embedded as separate
  store transformers; an execution interleaves them (see `ReachableStore`).
* The external provider (`resend.batch.send`) is a parameter: either it
  returns a response value or it throws; both are constructors of
  `ProviderResponse`.
-/

namespace BulkEmail

/-! ### Characters used by the template scanner

Written via `Char.ofNat` codes: 123 = left brace, 125 = right brace,
124 = vertical bar, 34 = double quote, 39 = single quote. -/

def lbrace : Char := Char.ofNat 123

def rbrace : Char := Char.ofNat 125

def barChar : Char := Char.ofNat 124

def dquoteChar : Char := Char.ofNat 34

def squoteChar : Char := Char.ofNat 39

/-! ### TemplateRenderer: `replaceVariables` from `src/utils/emailHelpers.ts`

Source:
```
return template.replace(/\x7b\x7b([^\x7d]+)\x7d\x7d/g, (match, variable) => \x7b
  const [varName, fallback] = variable.split(&#124;).map(s => s.trim());
  let value = data[varName];
  if (value === undefined || value === null || value === ...empty...) \x7b
    if (fallback) return fallback.replace(/^["&#39;]|["&#39;]$/g, ...empty...);
    return match;
  \x7d
  return String(value);
\x7d);
```
A recipient record (`data`) is an association list of string fields. -/

def EmailRecord : Type := List (String × String)

instance : DecidableEq EmailRecord :=
  inferInstanceAs (DecidableEq (List (String × String)))

/-- First-match lookup of a field in a recipient record (JS `data[varName]`;
an absent key is `none`, i.e. JS `undefined`). -/
def lookupField : List (String × String) → String → Option String
  | [], _ => none
  | (k, v) :: rest, key => if k = key then some v else lookupField rest key

/-- JS `s.split(bar)`: split a character list on every vertical bar,
keeping empty pieces; the empty input yields one empty piece. -/
def splitOnBar : List Char → List (List Char)
  | [] => [[]]
  | c :: rest =>
    if c = barChar then
      [] :: splitOnBar rest
    else
      match splitOnBar rest with
      | [] => [[c]]
      | part :: parts => (c :: part) :: parts

/-- JS `s.trim()`: drop leading and trailing whitespace. -/
def trimChars (l : List Char) : List Char :=
  ((l.dropWhile Char.isWhitespace).reverse.dropWhile Char.isWhitespace).reverse

/-- JS `fallback.replace(/^["&#39;]|["&#39;]$/g, ...empty...)`: strip one
leading and one trailing single/double quote, each independently. -/
def stripQuotes (s : String) : String :=
  let l₁ :=
    match s.data with
    | c :: rest => if c = dquoteChar ∨ c = squoteChar then rest else s.data
    | [] => []
  let l₂ :=
    match l₁.getLast? with
    | some c => if c = dquoteChar ∨ c = squoteChar then l₁.dropLast else l₁
    | none => l₁
  String.mk l₂

/-- The replacement callback when no (or an empty) fallback part is present:
`if (fallback) return stripped; return match;` — an empty-string fallback is
falsy in JS, so the original token text is returned. -/
def resolveFallback : Option String → String → String
  | some fb, orig => if fb = "" then orig else stripQuotes fb
  | none, orig => orig

/-- The replacement callback applied to one matched token body
(the characters strictly between the double braces). -/
def resolveToken (data : List (String × String)) (body : List Char) : String :=
  let parts := (splitOnBar body).map (fun p => String.mk (trimChars p))
  let varName := parts.headD ""
  let fallback := parts[1]?
  let orig := String.mk (lbrace :: lbrace :: body ++ [rbrace, rbrace])
  match lookupField data varName with
  | some value => if value = "" then resolveFallback fallback orig else value
  | none => resolveFallback fallback orig

/-- One pass of the global regex replace for `/\x7b\x7b([^\x7d]+)\x7d\x7d/g`:
at a double left brace, the greedy body `[^\x7d]+` runs to the first right
brace; the match succeeds iff the body is nonempty and two right braces
follow; on failure the scanner advances one character; on success it
continues after the match.  `fuel` bounds recursion depth (the callers pass
the list length, which suffices: every recursive call is on a shorter list). -/
def rvGoAux (data : List (String × String)) : Nat → List Char → List Char
  | _, [] => []
  | 0, l => l
  | fuel + 1, c :: rest =>
    if c = lbrace then
      match rest with
      | c₂ :: rest₂ =>
        if c₂ = lbrace then
          let body := rest₂.takeWhile (fun x => x ≠ rbrace)
          let after := rest₂.dropWhile (fun x => x ≠ rbrace)
          match body, after with
          | _ :: _, a₁ :: a₂ :: rest₃ =>
            if a₁ = rbrace ∧ a₂ = rbrace then
              (resolveToken data body).data ++ rvGoAux data fuel rest₃
            else
              c :: rvGoAux data fuel rest
          | _, _ => c :: rvGoAux data fuel rest
        else
          c :: rvGoAux data fuel rest
      | [] => [c]
    else
      c :: rvGoAux data fuel rest

/-- `template.replace(/\x7b\x7b([^\x7d]+)\x7d\x7d/g, callback)`. -/
def rvGo (data : List (String × String)) (l : List Char) : List Char :=
  rvGoAux data l.length l

/-- `replaceVariables(template, data)` from `src/utils/emailHelpers.ts`.
The guard `if (!template || !data) return template` is the identity here:
an empty template scans to itself and `data` is always an object. -/
def replaceVariables (template : String) (data : List (String × String)) : String :=
  String.mk (rvGo data template.data)

/-! ### Data model of the send API module (send.ts document of `src/unnamed/part_001`) -/

inductive SendStatus
  | success
  | failed
deriving DecidableEq

inductive BatchStatus
  | processing
  | completed
  | failed
deriving DecidableEq

/-- `EmailResult` from the send API module. -/
structure EmailResult where
  email : String
  status : SendStatus
  messageId : Option String
  error : Option String
deriving DecidableEq

/-- The per-batch record stored in the `batchResults` map.  `createdAt`
(a JS `Date`) is a natural-number timestamp in milliseconds. -/
structure Batch where
  results : List EmailResult
  status : BatchStatus
  totalSent : Nat
  totalFailed : Nat
  createdAt : Nat
deriving DecidableEq

/-- The in-memory `batchResults : Map<string, ...>` as an association list. -/
def Store : Type := List (String × Batch)

instance : DecidableEq Store :=
  inferInstanceAs (DecidableEq (List (String × Batch)))

/-- `Map.get(id)`: first entry with the given key. -/
def Store.get : Store → String → Option Batch
  | [], _ => none
  | (k, b) :: rest, id => if k = id then some b else Store.get rest id

/-- `Map.set(id, b)`: replace the entry with the given key, or append. -/
def Store.set : Store → String → Batch → Store
  | [], id, b => [(id, b)]
  | (k, v) :: rest, id, b =>
    if k = id then (id, b) :: rest else (k, v) :: Store.set rest id b

/-! ### The provider (`resend.batch.send`) as an abstract collaborator -/

/-- One element of the provider response data (`result.id`). -/
structure RespItem where
  id : Option String
deriving DecidableEq

/-- JS truthiness of `result.id`: present and nonempty. -/
def RespItem.hasId (r : RespItem) : Bool := r.id.getD "" ≠ ""

/-- The three data shapes the code branches on: `Array.isArray(response.data)`,
`response.data.data` an array, or a single result object. -/
inductive RespData
  | flat (items : List RespItem)
  | nested (items : List RespItem)
  | single (item : RespItem)
deriving DecidableEq

/-- `response.error` (an object with an optional `message`). -/
structure ErrObj where
  message : Option String
deriving DecidableEq

/-- A call to `resend.batch.send` either returns `\x7bdata, error\x7d` or throws. -/
inductive ProviderResponse
  | resp (data : Option RespData) (error : Option ErrObj)
  | throws (msg : String)
deriving DecidableEq

/-- `response.error?.message || (generic message)`. -/
def topErrorMessage : Option ErrObj → String
  | some e =>
    match e.message with
    | some m => if m = "" then "Batch send failed" else m
    | none => "Batch send failed"
  | none => "Batch send failed"

/-- The payload handed to the provider for one recipient. -/
structure EmailPayload where
  toAddr : String  -- source field name: `to` (a Lean keyword)
  subject : String
  html : String
  text : String
deriving DecidableEq

/-- The outcome pushed for the item at one input position:
a truthy `result.id` marks success with that id, otherwise failure. -/
def itemOutcome (e : EmailPayload) (item : RespItem) : EmailResult :=
  if item.hasId then ⟨e.toAddr, .success, item.id, none⟩
  else ⟨e.toAddr, .failed, none, some "No message ID returned"⟩

/-- Placeholder for the message of the runtime `TypeError` raised by
`emails[index].to` when `index` is out of range. -/
def indexErrorMessage : String := "TypeError"

/-- `response.data.forEach((result, index) => ...)` pushing per-item outcomes
via `emails[index].to`.  Returns the pushed outcomes and whether the loop
threw (it throws at the first index beyond `emails`, with nothing pushed for
that item). -/
def mapItems (emails : List EmailPayload) : List RespItem → Nat → List EmailResult × Bool
  | [], _ => ([], false)
  | item :: rest, i =>
    match emails[i]? with
    | some e =>
      let (rs, threw) := mapItems emails rest (i + 1)
      (itemOutcome e item :: rs, threw)
    | none => ([], true)

/-- All-failed outcomes appended by the error branches
(`emails.forEach(... status failed ...)`). -/
def allFailed (emails : List EmailPayload) (msg : String) : List EmailResult :=
  emails.map (fun e => ⟨e.toAddr, .failed, none, some msg⟩)

/-- `sendEmailBatch` from the send API module, with the provider call
abstracted into the `response` argument.  The function catches a throwing
provider call (and the `TypeError` from an out-of-range `emails[index]`),
appending one failure entry per email of the chunk to whatever was already
pushed; it never itself throws. -/
def sendEmailBatch (response : ProviderResponse) (emails : List EmailPayload) :
    List EmailResult :=
  match response with
  | .throws msg => allFailed emails msg
  | .resp data? error? =>
    match data?, error? with
    | some data, none =>
      match data with
      | .flat items =>
        let (rs, threw) := mapItems emails items 0
        if threw then rs ++ allFailed emails indexErrorMessage else rs
      | .nested items =>
        let (rs, threw) := mapItems emails items 0
        if threw then rs ++ allFailed emails indexErrorMessage else rs
      | .single item =>
        match emails[0]? with
        | some e₀ => [itemOutcome e₀ item]
        | none => allFailed emails indexErrorMessage
    | _, _ => allFailed emails (topErrorMessage error?)

/-! ### The submit handler (`handler` in the send API module) -/

/-- The request body (`SendEmailRequest`).  A missing or non-array
`recipients` behaves like an empty list under the validation check
`!recipients || !Array.isArray(recipients) || recipients.length === 0`;
a missing `subject`/`htmlContent` behaves like the empty string under
`!subject || !htmlContent`; both are modelled by the falsy value itself. -/
structure SendEmailRequest where
  recipients : List EmailRecord
  subject : String
  htmlContent : String
  textContent : String
  fromName : Option String
deriving DecidableEq

/-- The two environment variables consulted for the sender address. -/
structure Env where
  FROM_EMAIL : Option String
  NEXT_PUBLIC_FROM_EMAIL : Option String
deriving DecidableEq

/-- JS `a || b` on two possibly-undefined strings: the left operand unless
it is falsy (undefined or empty). -/
def jsOr (a b : Option String) : Option String :=
  match a with
  | some v => if v = "" then b else some v
  | none => b

/-- `process.env.FROM_EMAIL || process.env.NEXT_PUBLIC_FROM_EMAIL`. -/
def envFromEmail (env : Env) : Option String :=
  jsOr env.FROM_EMAIL env.NEXT_PUBLIC_FROM_EMAIL

/-- JS falsiness of the resulting `fromEmail`: undefined or empty. -/
def fromEmailMissing (fe : Option String) : Bool :=
  match fe with
  | some v => v = ""
  | none => true

/-- `fromEmail?.includes(at) ? fromEmail : noreply@fromEmail`; when
`fromEmail` is undefined the template literal stringifies it. -/
def completeFromEmail (fe : Option String) : String :=
  match fe with
  | some f => if f.contains '@' then f else "noreply@" ++ f
  | none => "noreply@undefined"

/-- The synchronous result of the submit handler (HTTP 400 or 200). -/
inductive SubmitOutcome
  | validationError (message : String)
  | accepted (batchId : String)
deriving DecidableEq

/-- The freshly created batch record (`results: [], status: processing,
totalSent: 0, totalFailed: 0, createdAt: new Date()`). -/
def initialBatch (now : Nat) : Batch := ⟨[], .processing, 0, 0, now⟩

/-- `handler` of the send API module: the validation sequence and, on
success, the creation of the batch record.  `newBatchId` stands for the
generated `batch_(timestamp)_(random)` id and `now` for `Date.now()`.
The call `processBatchAsync(...)` is issued without `await`
(fire-and-forget), so the background work is a separate step
(`processBatchAsync` below); the handler itself performs no send work and
returns the batch id synchronously. -/
def sendHandler (env : Env) (req : SendEmailRequest) (store : Store)
    (newBatchId : String) (now : Nat) : SubmitOutcome × Store :=
  let fromEmail := envFromEmail env
  if req.recipients = [] then
    (.validationError "Recipients array is required and cannot be empty", store)
  else if req.subject = "" ∨ req.htmlContent = "" then
    (.validationError "Subject and HTML content are required", store)
  else if fromEmailMissing fromEmail then
    (.validationError "FROM_EMAIL environment variable is required", store)
  else if 1000 < req.recipients.length then
    (.validationError "Maximum 1000 recipients allowed per batch", store)
  else
    (.accepted newBatchId, store.set newBatchId (initialBatch now))

/-! ### The background chunk loop (`processBatchAsync`) -/

/-- `BATCH_SIZE = 100` (the provider limit per call). -/
def BATCH_SIZE : Nat := 100

/-- `chunksOfAux`: fuel-bounded recursion for the chunk partition; the fuel
is the list length at the top call, which bounds the recursion depth since
every recursive call drops at least one element. -/
def chunksOfAux : Nat → List EmailRecord → List (List EmailRecord)
  | _, [] => []
  | 0, _ => []
  | fuel + 1, l => l.take BATCH_SIZE :: chunksOfAux fuel (l.drop BATCH_SIZE)

/-- The partition performed by
`for (let i = 0; i < recipients.length; i += BATCH_SIZE)` with
`recipients.slice(i, i + BATCH_SIZE)`. -/
def chunksOf (l : List EmailRecord) : List (List EmailRecord) :=
  chunksOfAux l.length l

/-- `recipient.email` (a record missing the field would give `undefined`
in JS; modelled as the empty string). -/
def recipientEmail (r : EmailRecord) : String :=
  (lookupField r "email").getD ""

/-- The per-chunk payload preparation (`chunk.map(recipient => ...)` with
the three `replaceVariables` calls). -/
def buildEmails (subject htmlContent textContent : String)
    (chunk : List EmailRecord) : List EmailPayload :=
  chunk.map (fun r =>
    ⟨recipientEmail r, replaceVariables subject r,
      replaceVariables htmlContent r, replaceVariables textContent r⟩)

/-- The body of one iteration of the chunk loop.  The source body performs
no store operation at all: the chunk outcomes are appended to the local
`allResults` array only.  The store component is threaded unchanged so the
store visible between iterations is explicit. -/
def chunkStep (provider : Nat → ProviderResponse)
    (subject htmlContent textContent : String)
    (st : Store × List EmailResult) (kc : Nat × List EmailRecord) :
    Store × List EmailResult :=
  (st.1, st.2 ++ sendEmailBatch (provider kc.1)
    (buildEmails subject htmlContent textContent kc.2))

/-- The concatenated outcomes of a list of indexed chunks. -/
def chunkOutcomes (provider : Nat → ProviderResponse)
    (subject htmlContent textContent : String)
    (chunks : List (Nat × List EmailRecord)) : List EmailResult :=
  (chunks.map (fun kc => sendEmailBatch (provider kc.1)
    (buildEmails subject htmlContent textContent kc.2))).flatten

/-- `processBatchAsync` from the send API module.  `provider k` is the
response of the `k`-th `resend.batch.send` call (a throwing call is the
`throws` constructor and is caught inside `sendEmailBatch`).  After the
loop, the single store write sets the completed record; the pacing delay
does not affect the store (it is modelled in `chunkTrace` below). -/
def processBatchAsync (provider : Nat → ProviderResponse) (store : Store)
    (batchId : String) (recipients : List EmailRecord)
    (subject htmlContent textContent : String) : Store :=
  match store.get batchId with
  | none => store
  | some batch =>
    let step := ((chunksOf recipients).enum).foldl
      (chunkStep provider subject htmlContent textContent) (store, [])
    let allResults := step.2
    let totalSent := (allResults.filter (fun r => r.status = .success)).length
    let totalFailed := (allResults.filter (fun r => r.status = .failed)).length
    Store.set step.1 batchId
      ⟨allResults, .completed, totalSent, totalFailed, batch.createdAt⟩

/-- The `catch` handler of `processBatchAsync` (lines 495-504): on an
exception escaping the loop, re-read the batch and, when still present,
set only its `status` to `failed`. -/
def markBatchFailed (store : Store) (batchId : String) : Store :=
  match store.get batchId with
  | none => store
  | some batch => store.set batchId { batch with status := .failed }

/-! ### Pacing trace of the chunk loop (for the call/delay schedule) -/

/-- Observable events of the chunk loop: one provider call per chunk, and
the fixed 1-second `setTimeout` pause. -/
inductive DispatchEvent
  | call (chunk : List EmailRecord)
  | delay
deriving DecidableEq

def DispatchEvent.isCall : DispatchEvent → Bool
  | .call _ => true
  | .delay => false

/-- Fuel-bounded event trace of
`for (i = 0; i < N; i += BATCH_SIZE) \x7b send chunk; if (i + BATCH_SIZE < N) pause \x7d`. -/
def chunkTraceAux : Nat → List EmailRecord → List DispatchEvent
  | _, [] => []
  | 0, _ => []
  | fuel + 1, l =>
    .call (l.take BATCH_SIZE) ::
      ((if BATCH_SIZE < l.length then [.delay] else []) ++
        chunkTraceAux fuel (l.drop BATCH_SIZE))

/-- The event trace of the chunk loop on a recipient list. -/
def chunkTrace (recipients : List EmailRecord) : List DispatchEvent :=
  chunkTraceAux recipients.length recipients

/-! ### The status endpoint (`handler` of the status API module) -/

/-- The response of the status endpoint. -/
inductive StatusOutcome
  | badRequest (message : String)
  | notFound (message : String)
  | ok (batchId : String) (status : BatchStatus) (results : List EmailResult)
      (totalSent totalFailed progress : Nat)
deriving DecidableEq

/-- `Math.round(x)` for the nonnegative rational `num / den` (`den > 0`):
floor of `num / den + 1 / 2`. -/
def mathRound (num den : Nat) : Nat := (2 * num + den) / (2 * den)

/-- `handler` of the status API module: a missing/non-string `batchId`
is HTTP 400; an absent batch is HTTP 404; otherwise the stored record is
projected with
`progress = totalRecords > 0 ? Math.round(completedRecords / totalRecords * 100) : 0`
where `completedRecords` counts results whose status is success or failed. -/
def statusHandler (store : Store) (batchId : Option String) : StatusOutcome :=
  match batchId with
  | none => .badRequest "Batch ID is required"
  | some id =>
    match store.get id with
    | none => .notFound "Batch not found or expired"
    | some batch =>
      let totalRecords := batch.results.length
      let completedRecords := (batch.results.filter
        (fun r => r.status = .success ∨ r.status = .failed)).length
      let progress :=
        if 0 < totalRecords then mathRound (completedRecords * 100) totalRecords
        else 0
      .ok id batch.status batch.results batch.totalSent batch.totalFailed progress

/-! ### Cleanup sweep and reachable stores -/

/-- `cleanupOldBatches`: delete entries older than 24 hours. -/
def cleanupOldBatches (store : Store) (now : Nat) : Store :=
  store.filter (fun kb => ¬ (24 * 60 * 60 * 1000 < now - kb.2.createdAt))

/-- The stores reachable from the empty map by the write operations of the
program: the submit handler, a completed background run, the loop's
exception handler, and the cleanup sweep.  (The status endpoint never
writes.) -/
inductive ReachableStore : Store → Prop
  | empty : ReachableStore []
  | submit (env req id now) {s : Store} :
      ReachableStore s → ReachableStore (sendHandler env req s id now).2
  | process (provider id recipients subject htmlContent textContent)
      {s : Store} :
      ReachableStore s →
      ReachableStore
        (processBatchAsync provider s id recipients subject htmlContent
          textContent)
  | fail (id) {s : Store} :
      ReachableStore s → ReachableStore (markBatchFailed s id)
  | cleanup (now) {s : Store} :
      ReachableStore s → ReachableStore (cleanupOldBatches s now)

/-- Whether a character list contains two adjacent left braces (the only
position at which the token regex can match). -/
def hasDoubleBrace : List Char → Bool
  | c :: c₂ :: rest => (c = lbrace && c₂ = lbrace) || hasDoubleBrace (c₂ :: rest)
  | _ => false

/-! ### Invariant predicate and concrete fixtures used by the witnesses -/

/-- The counts invariant of a stored batch record. -/
def batchInv (b : Batch) : Prop :=
  b.totalSent + b.totalFailed = b.results.length

/-- A sender environment with `FROM_EMAIL` configured. -/
def envFixture : Env := ⟨some "sender@example.com", none⟩

/-- A valid one-recipient submission. -/
def reqFixture : SendEmailRequest :=
  ⟨[[("email", "u@example.com"), ("name", "Ann")]], "subject", "body", "", none⟩

/-- A store holding one freshly created batch under id `b1`. -/
def storeOneBatch : Store := Store.set [] "b1" (initialBatch 0)

/-- 150 identical recipients (three times the second chunk is exercised). -/
def recips150 : List EmailRecord := List.replicate 150 [("email", "u@example.com")]

/-- 101 identical recipients (two chunks of sizes 100 and 1). -/
def recips101 : List EmailRecord := List.replicate 101 [("email", "u@example.com")]

/-- A provider stub that throws on the second call and answers every other
call with a flat list of 100 successful ids. -/
def providerThrowsSecond : Nat → ProviderResponse := fun k =>
  if k = 1 then .throws "boom"
  else .resp (some (.flat (List.replicate 100 ⟨some "mid"⟩))) none

/-- A provider stub answering call `k` with a flat list of successful ids
sized to the `k`-th chunk of a 101-recipient batch. -/
def providerFlatFor101 : Nat → ProviderResponse := fun k =>
  if k = 0 then .resp (some (.flat (List.replicate 100 ⟨some "mid"⟩))) none
  else .resp (some (.flat (List.replicate 1 ⟨some "mid"⟩))) none

/-- The record used by the re-rendering counterexample: field `a` holds
token syntax for field `b`. -/
def dataReRender : List (String × String) :=
  [("a", "\x7b\x7bb\x7d\x7d"), ("b", "X")]

/-! ### Basic lemmas about the store -/

instance : Membership (String × Batch) Store :=
  inferInstanceAs (Membership (String × Batch) (List (String × Batch)))

theorem Store.get_set_same (s : Store) (id : String) (b : Batch) :
    (s.set id b).get id = some b := by
  induction s with
  | nil => simp [Store.set, Store.get]
  | cons kv rest ih =>
    obtain ⟨k, v⟩ := kv
    by_cases hk : k = id <;> simp [Store.set, Store.get, hk, ih]

theorem Store.get_set_ne (s : Store) (id id' : String) (b : Batch)
    (h : id' ≠ id) : (s.set id b).get id' = s.get id' := by
  have h' : ¬ id = id' := fun hh => h hh.symm
  induction s with
  | nil => simp [Store.set, Store.get, h']
  | cons kv rest ih =>
    obtain ⟨k, v⟩ := kv
    by_cases hk : k = id
    · subst hk
      simp [Store.set, Store.get, h']
    · simp [Store.set, Store.get, hk, ih]

theorem Store.mem_set (s : Store) (id : String) (b : Batch) (k : String)
    (v : Batch) (h : (k, v) ∈ s.set id b) : (k = id ∧ v = b) ∨ (k, v) ∈ s := by
  induction s with
  | nil =>
    simp only [Store.set] at h
    exact Or.inl (by simpa using List.mem_singleton.mp h)
  | cons kv rest ih =>
    obtain ⟨k₀, v₀⟩ := kv
    by_cases hk : k₀ = id
    · simp only [Store.set, hk, if_pos] at h
      rcases List.mem_cons.mp h with h | h
      · exact Or.inl (by simpa using h)
      · exact Or.inr (List.mem_cons_of_mem _ h)
    · simp only [Store.set, hk, if_neg, ite_false] at h
      rcases List.mem_cons.mp h with h | h
      · exact Or.inr (h ▸ List.mem_cons_self _ _)
      · rcases ih h with h' | h'
        · exact Or.inl h'
        · exact Or.inr (List.mem_cons_of_mem _ h')

theorem Store.get_mem (s : Store) (id : String) (b : Batch)
    (h : s.get id = some b) : (id, b) ∈ s := by
  induction s with
  | nil => simp [Store.get] at h
  | cons kv rest ih =>
    obtain ⟨k, v⟩ := kv
    by_cases hk : k = id
    · subst hk
      simp [Store.get] at h
      subst h
      exact List.mem_cons_self _ _
    · simp [Store.get, hk] at h
      exact List.mem_cons_of_mem _ (ih h)

/-! ### Lemmas about the chunk partition -/

theorem chunksOfAux_congr : ∀ (f₁ f₂ : Nat) (l : List EmailRecord),
    l.length ≤ f₁ → l.length ≤ f₂ → chunksOfAux f₁ l = chunksOfAux f₂ l := by
  intro f₁
  induction f₁ with
  | zero =>
    intro f₂ l h₁ _
    have : l = [] := List.eq_nil_of_length_eq_zero (Nat.le_zero.mp h₁)
    subst this
    cases f₂ <;> simp [chunksOfAux]
  | succ f ih =>
    intro f₂ l h₁ h₂
    cases l with
    | nil => cases f₂ <;> simp [chunksOfAux]
    | cons a t =>
      cases f₂ with
      | zero => simp at h₂
      | succ f₂' =>
        simp only [List.length_cons] at h₁ h₂
        simp only [chunksOfAux]
        congr 1
        apply ih <;> simp only [List.length_drop, List.length_cons, BATCH_SIZE] <;>
          omega

theorem chunksOf_nil : chunksOf [] = [] := rfl

theorem chunksOf_cons (l : List EmailRecord) (h : l ≠ []) :
    chunksOf l = l.take BATCH_SIZE :: chunksOf (l.drop BATCH_SIZE) := by
  cases l with
  | nil => exact absurd rfl h
  | cons a t =>
    show chunksOfAux (t.length + 1) (a :: t) = _
    simp only [chunksOfAux]
    congr 1
    apply chunksOfAux_congr <;>
      simp only [List.length_drop, List.length_cons, BATCH_SIZE] <;> omega

theorem chunksOf_length : ∀ (n : Nat) (l : List EmailRecord), l.length ≤ n →
    (chunksOf l).length = (l.length + (BATCH_SIZE - 1)) / BATCH_SIZE := by
  intro n
  induction n with
  | zero =>
    intro l h
    have : l = [] := List.eq_nil_of_length_eq_zero (Nat.le_zero.mp h)
    subst this
    simp [chunksOf_nil, BATCH_SIZE]
  | succ n ih =>
    intro l h
    cases l with
    | nil => simp [chunksOf_nil, BATCH_SIZE]
    | cons a t =>
      have hB : BATCH_SIZE = 100 := rfl
      rw [chunksOf_cons _ (by simp)]
      have hd : ((a :: t).drop BATCH_SIZE).length ≤ n := by
        simp only [List.length_cons] at h
        simp only [List.length_drop, List.length_cons, BATCH_SIZE]
        omega
      rw [List.length_cons, ih _ hd]
      simp only [List.length_drop, List.length_cons, BATCH_SIZE]
      omega

theorem chunksOf_flatten : ∀ (n : Nat) (l : List EmailRecord), l.length ≤ n →
    (chunksOf l).flatten = l := by
  intro n
  induction n with
  | zero =>
    intro l h
    have : l = [] := List.eq_nil_of_length_eq_zero (Nat.le_zero.mp h)
    subst this
    simp [chunksOf_nil]
  | succ n ih =>
    intro l h
    cases l with
    | nil => simp [chunksOf_nil]
    | cons a t =>
      have hB : BATCH_SIZE = 100 := rfl
      rw [chunksOf_cons _ (by simp)]
      have hd : ((a :: t).drop BATCH_SIZE).length ≤ n := by
        simp only [List.length_cons] at h
        simp only [List.length_drop, List.length_cons, BATCH_SIZE]
        omega
      simp [ih _ hd]

theorem chunksOf_mem_length : ∀ (n : Nat) (l : List EmailRecord)
    (c : List EmailRecord), l.length ≤ n → c ∈ chunksOf l →
    c.length ≤ BATCH_SIZE := by
  intro n
  induction n with
  | zero =>
    intro l c h hc
    have : l = [] := List.eq_nil_of_length_eq_zero (Nat.le_zero.mp h)
    subst this
    simp [chunksOf_nil] at hc
  | succ n ih =>
    intro l c h hc
    cases l with
    | nil => simp [chunksOf_nil] at hc
    | cons a t =>
      rw [chunksOf_cons _ (by simp)] at hc
      rcases List.mem_cons.mp hc with hc | hc
      · subst hc
        exact List.length_take_le BATCH_SIZE (a :: t)
      · refine ih _ _ ?_ hc
        simp only [List.length_cons] at h
        simp only [List.length_drop, List.length_cons, BATCH_SIZE]
        omega

/-! ### Lemmas about the pacing trace -/

theorem chunkTraceAux_congr : ∀ (f₁ f₂ : Nat) (l : List EmailRecord),
    l.length ≤ f₁ → l.length ≤ f₂ → chunkTraceAux f₁ l = chunkTraceAux f₂ l := by
  intro f₁
  induction f₁ with
  | zero =>
    intro f₂ l h₁ _
    have : l = [] := List.eq_nil_of_length_eq_zero (Nat.le_zero.mp h₁)
    subst this
    cases f₂ <;> simp [chunkTraceAux]
  | succ f ih =>
    intro f₂ l h₁ h₂
    cases l with
    | nil => cases f₂ <;> simp [chunkTraceAux]
    | cons a t =>
      cases f₂ with
      | zero => simp at h₂
      | succ f₂' =>
        simp only [List.length_cons] at h₁ h₂
        simp only [chunkTraceAux]
        congr 2
        apply ih <;> simp only [List.length_drop, List.length_cons, BATCH_SIZE] <;>
          omega

theorem chunkTrace_cons (l : List EmailRecord) (h : l ≠ []) :
    chunkTrace l = .call (l.take BATCH_SIZE) ::
      ((if BATCH_SIZE < l.length then [.delay] else []) ++
        chunkTrace (l.drop BATCH_SIZE)) := by
  cases l with
  | nil => exact absurd rfl h
  | cons a t =>
    show chunkTraceAux (t.length + 1) (a :: t) = _
    simp only [chunkTraceAux]
    congr 2
    apply chunkTraceAux_congr <;>
      simp only [List.length_drop, List.length_cons, BATCH_SIZE] <;> omega

theorem chunkTrace_nil : chunkTrace [] = [] := rfl

theorem chunkTrace_eq_intersperse : ∀ (n : Nat) (l : List EmailRecord),
    l.length ≤ n →
    chunkTrace l = List.intersperse .delay ((chunksOf l).map .call) := by
  intro n
  induction n with
  | zero =>
    intro l h
    have : l = [] := List.eq_nil_of_length_eq_zero (Nat.le_zero.mp h)
    subst this
    simp [chunksOf_nil, chunkTrace_nil]
  | succ n ih =>
    intro l h
    cases l with
    | nil => simp [chunksOf_nil, chunkTrace_nil]
    | cons a t =>
      have hne : (a :: t) ≠ [] := by simp
      rw [chunkTrace_cons _ hne, chunksOf_cons _ hne]
      have hd : ((a :: t).drop BATCH_SIZE).length ≤ n := by
        simp only [List.length_cons] at h
        simp only [List.length_drop, List.length_cons, BATCH_SIZE]
        omega
      by_cases hlen : BATCH_SIZE < (a :: t).length
      · have hdne : (a :: t).drop BATCH_SIZE ≠ [] := by
          simp only [List.length_cons] at hlen
          intro hz
          have := congrArg List.length hz
          simp only [List.length_drop, List.length_cons, List.length_nil,
            BATCH_SIZE] at this hlen
          omega
        rw [chunksOf_cons _ hdne]
        simp only [List.map_cons, List.intersperse_cons_cons, hlen, if_pos]
        rw [ih _ hd, chunksOf_cons _ hdne]
        simp
      · have hlen' : ¬ BATCH_SIZE < t.length + 1 := by
          simpa using hlen
        have hdnil : (a :: t).drop BATCH_SIZE = [] := by
          apply List.eq_nil_of_length_eq_zero
          simp only [List.length_drop, List.length_cons]
          simp only [BATCH_SIZE] at hlen' ⊢
          omega
        rw [hdnil, chunksOf_nil]
        simp [hlen', chunkTrace_nil]

/-! ### The chunk loop as a fold; the completed-run equation -/

theorem foldl_chunkStep (provider : Nat → ProviderResponse)
    (subject htmlContent textContent : String) :
    ∀ (chunks : List (Nat × List EmailRecord)) (st : Store)
      (acc : List EmailResult),
    List.foldl (chunkStep provider subject htmlContent textContent) (st, acc)
        chunks
      = (st, acc ++ chunkOutcomes provider subject htmlContent textContent
          chunks) := by
  intro chunks
  induction chunks with
  | nil =>
    intro st acc
    simp [chunkOutcomes]
  | cons kc rest ih =>
    intro st acc
    simp only [List.foldl_cons, chunkStep, ih, chunkOutcomes, List.map_cons,
      List.flatten_cons, List.append_assoc]

/-- The single terminal write of a completed background run. -/
theorem processBatchAsync_eq (provider : Nat → ProviderResponse)
    (store : Store) (id : String) (recipients : List EmailRecord)
    (subject htmlContent textContent : String) (batch : Batch)
    (h : store.get id = some batch) :
    processBatchAsync provider store id recipients subject htmlContent
        textContent
      = store.set id
          ⟨chunkOutcomes provider subject htmlContent textContent
              ((chunksOf recipients).enum),
            .completed,
            ((chunkOutcomes provider subject htmlContent textContent
              ((chunksOf recipients).enum)).filter
                (fun r => r.status = .success)).length,
            ((chunkOutcomes provider subject htmlContent textContent
              ((chunksOf recipients).enum)).filter
                (fun r => r.status = .failed)).length,
            batch.createdAt⟩ := by
  simp only [processBatchAsync, h, foldl_chunkStep, List.nil_append]

theorem processBatchAsync_absent (provider : Nat → ProviderResponse)
    (store : Store) (id : String) (recipients : List EmailRecord)
    (subject htmlContent textContent : String)
    (h : store.get id = none) :
    processBatchAsync provider store id recipients subject htmlContent
        textContent = store := by
  simp only [processBatchAsync, h]

/-- Every `EmailResult` status is success or failed, so the two filtered
counts always total the list length. -/
theorem filter_status_length (l : List EmailResult) :
    (l.filter (fun r => r.status = .success)).length
      + (l.filter (fun r => r.status = .failed)).length = l.length := by
  induction l with
  | nil => simp
  | cons r t ih =>
    cases hr : r.status <;> simp [List.filter_cons, hr] <;> omega

/-- The submit handler either leaves the store unchanged or creates the
fresh record under the new id. -/
theorem sendHandler_store (env : Env) (req : SendEmailRequest) (s : Store)
    (id : String) (now : Nat) :
    (sendHandler env req s id now).2 = s ∨
      (sendHandler env req s id now).2 = s.set id (initialBatch now) := by
  unfold sendHandler
  by_cases h1 : req.recipients = [] <;>
    by_cases h2 : req.subject = "" ∨ req.htmlContent = "" <;>
      by_cases h3 : fromEmailMissing (envFromEmail env) = true <;>
        by_cases h4 : 1000 < req.recipients.length <;>
          simp [h1, h2, h3, h4]

/-- The counts invariant holds for every entry of every reachable store. -/
theorem reachable_batchInv {s : Store} (hs : ReachableStore s) :
    ∀ k b, (k, b) ∈ s → batchInv b := by
  induction hs with
  | empty =>
    intro k b h
    exact absurd h (List.not_mem_nil _)
  | submit env req id now _ ih =>
    intro k b h
    rename_i s' _
    rcases sendHandler_store env req s' id now with he | he
    · exact ih k b (by rwa [he] at h)
    · rw [he] at h
      rcases Store.mem_set _ _ _ _ _ h with ⟨_, hb⟩ | hmem
      · subst hb
        simp [batchInv, initialBatch]
      · exact ih k b hmem
  | process provider id recipients subject htmlContent textContent _ ih =>
    intro k b h
    rename_i s' _
    cases hget : s'.get id with
    | none => exact ih k b (by rwa [processBatchAsync_absent _ _ _ _ _ _ _ hget] at h)
    | some batch =>
      rw [processBatchAsync_eq _ _ _ _ _ _ _ _ hget] at h
      rcases Store.mem_set _ _ _ _ _ h with ⟨_, hb⟩ | hmem
      · subst hb
        simp [batchInv, filter_status_length]
      · exact ih k b hmem
  | fail id _ ih =>
    intro k b h
    rename_i s' _
    unfold markBatchFailed at h
    cases hget : s'.get id with
    | none => simp only [hget] at h; exact ih k b h
    | some batch =>
      simp only [hget] at h
      rcases Store.mem_set _ _ _ _ _ h with ⟨_, hb⟩ | hmem
      · subst hb
        have := ih id batch (Store.get_mem _ _ _ hget)
        simpa [batchInv] using this
      · exact ih k b hmem
  | cleanup now _ ih =>
    intro k b h
    unfold cleanupOldBatches at h
    exact ih k b (List.mem_of_mem_filter h)

/-! ### Lemmas about the template scanner -/

theorem mk_data_eq : ∀ s : String, String.mk s.data = s
  | ⟨_⟩ => rfl

theorem dropWhile_head_false {p : Char → Bool} : ∀ l : List Char,
    (∀ c ∈ l, p c = false) → l.dropWhile p = l := by
  intro l h
  cases l with
  | nil => rfl
  | cons a t => simp [List.dropWhile_cons, h a (by simp)]

theorem trimChars_eq_self (l : List Char)
    (h : ∀ c ∈ l, c.isWhitespace = false) : trimChars l = l := by
  unfold trimChars
  rw [dropWhile_head_false l h,
    dropWhile_head_false l.reverse (fun c hc => h c (List.mem_reverse.mp hc)),
    List.reverse_reverse]

theorem splitOnBar_no_bar : ∀ l : List Char,
    (∀ c ∈ l, c ≠ barChar) → splitOnBar l = [l] := by
  intro l
  induction l with
  | nil => intro _; rfl
  | cons c rest ih =>
    intro h
    rw [splitOnBar, ih (fun x hx => h x (by simp [hx]))]
    simp [h c (by simp)]

theorem splitOnBar_append : ∀ (l₁ l₂ : List Char),
    (∀ c ∈ l₁, c ≠ barChar) →
    splitOnBar (l₁ ++ barChar :: l₂) = l₁ :: splitOnBar l₂ := by
  intro l₁
  induction l₁ with
  | nil =>
    intro l₂ _
    simp [splitOnBar]
  | cons c rest ih =>
    intro l₂ h
    rw [List.cons_append, splitOnBar, ih l₂ (fun x hx => h x (by simp [hx]))]
    simp [h c (by simp)]

theorem takeWhile_middle (p : Char → Bool) : ∀ (l₁ : List Char) (a : Char)
    (l₂ : List Char), (∀ c ∈ l₁, p c = true) → p a = false →
    (l₁ ++ a :: l₂).takeWhile p = l₁ ∧ (l₁ ++ a :: l₂).dropWhile p = a :: l₂ := by
  intro l₁
  induction l₁ with
  | nil =>
    intro a l₂ _ ha
    simp [List.takeWhile_cons, List.dropWhile_cons, ha]
  | cons c rest ih =>
    intro a l₂ h ha
    have hc : p c = true := h c (by simp)
    have := ih a l₂ (fun x hx => h x (by simp [hx])) ha
    simp [List.takeWhile_cons, List.dropWhile_cons, hc, this.1, this.2]

theorem rvGoAux_congr (data : List (String × String)) : ∀ (f₁ f₂ : Nat)
    (l : List Char), l.length ≤ f₁ → l.length ≤ f₂ →
    rvGoAux data f₁ l = rvGoAux data f₂ l := by
  intro f₁
  induction f₁ with
  | zero =>
    intro f₂ l h₁ _
    have : l = [] := List.eq_nil_of_length_eq_zero (Nat.le_zero.mp h₁)
    subst this
    cases f₂ <;> rfl
  | succ f ih =>
    intro f₂ l h₁ h₂
    cases l with
    | nil => cases f₂ <;> rfl
    | cons c rest =>
      cases f₂ with
      | zero => simp at h₂
      | succ f₂' =>
        simp only [List.length_cons] at h₁ h₂
        show rvGoAux data (f + 1) (c :: rest) = rvGoAux data (f₂' + 1) (c :: rest)
        by_cases hc : c = lbrace
        · cases rest with
          | nil => simp [rvGoAux, hc]
          | cons c₂ rest₂ =>
            simp only [List.length_cons] at h₁ h₂
            have hrec : ∀ d : Char, rvGoAux data f (d :: rest₂)
                = rvGoAux data f₂' (d :: rest₂) :=
              fun d => ih f₂' (d :: rest₂) (by simp; omega) (by simp; omega)
            by_cases hc₂ : c₂ = lbrace
            · have hlen₂ : (rest₂.takeWhile (fun x => x ≠ rbrace)).length
                  + (rest₂.dropWhile (fun x => x ≠ rbrace)).length
                  = rest₂.length := by
                conv_rhs => rw [← List.takeWhile_append_dropWhile
                  (p := fun x => x ≠ rbrace) (l := rest₂)]
                rw [List.length_append]
              simp only [rvGoAux, hc, hc₂, if_pos]
              cases htw : rest₂.takeWhile (fun x => x ≠ rbrace) with
              | nil => simpa using hrec _
              | cons b bs =>
                cases hdw : rest₂.dropWhile (fun x => x ≠ rbrace) with
                | nil => simpa using hrec _
                | cons a₁ rest₄ =>
                  cases rest₄ with
                  | nil => simpa using hrec _
                  | cons a₂ rest₃ =>
                    have hr₃ : rest₃.length + 2 ≤ rest₂.length := by
                      rw [htw, hdw] at hlen₂
                      simp at hlen₂
                      omega
                    by_cases hrr : a₁ = rbrace ∧ a₂ = rbrace
                    · simp only [hrr, and_self, if_pos]
                      rw [ih f₂' rest₃ (by omega) (by omega)]
                    · simp only [hrr, if_neg, if_false]
                      simpa using hrec _
            · simp only [rvGoAux, hc, hc₂, if_pos, if_neg, ite_false]
              simpa using hrec _
        · simp only [rvGoAux, hc, ite_false]
          rw [ih f₂' rest (by omega) (by omega)]

/-- When a character list contains no adjacent pair of left braces,
the scanner copies it unchanged. -/
theorem rvGoAux_no_token (data : List (String × String)) : ∀ (fuel : Nat)
    (l : List Char), hasDoubleBrace l = false → rvGoAux data fuel l = l := by
  intro fuel
  induction fuel with
  | zero =>
    intro l _
    cases l <;> rfl
  | succ f ih =>
    intro l h
    cases l with
    | nil => rfl
    | cons c rest =>
      cases rest with
      | nil => by_cases hc : c = lbrace <;> simp [rvGoAux, hc]
      | cons c₂ rest₂ =>
        simp only [hasDoubleBrace, Bool.or_eq_false_iff, Bool.and_eq_false_iff,
          decide_eq_false_iff_not] at h
        by_cases hc : c = lbrace
        · have hc₂ : ¬ c₂ = lbrace := by
            rcases h.1 with h' | h'
            · exact absurd hc h'
            · exact h'
          simp [rvGoAux, hc, hc₂, ih _ h.2]
        · simp [rvGoAux, hc, ih _ h.2]

theorem rvGo_no_token (data : List (String × String)) (l : List Char)
    (h : hasDoubleBrace l = false) : rvGo data l = l :=
  rvGoAux_no_token data l.length l h

/-- The scanner on a well-formed token: a nonempty body without right
braces, delimited by double braces, resolves through the callback and
scanning continues after the token. -/
theorem rvGo_token (data : List (String × String)) (body suffix : List Char)
    (hb : body ≠ []) (hnb : ∀ c ∈ body, c ≠ rbrace) :
    rvGo data (lbrace :: lbrace :: (body ++ rbrace :: rbrace :: suffix))
      = (resolveToken data body).data ++ rvGo data suffix := by
  have hsc := takeWhile_middle (fun x => x ≠ rbrace) body rbrace
    (rbrace :: suffix) (fun c hc => by simpa using hnb c hc) (by simp)
  obtain ⟨b, bs, rfl⟩ : ∃ b bs, body = b :: bs := by
    cases body with
    | nil => exact absurd rfl hb
    | cons b bs => exact ⟨b, bs, rfl⟩
  have hL : (lbrace :: lbrace :: ((b :: bs) ++ rbrace :: rbrace :: suffix)).length
      = (bs.length + suffix.length + 4) + 1 := by
    simp
    omega
  rw [rvGo, hL]
  simp only [rvGoAux, if_pos, hsc.1, hsc.2]
  rw [rvGoAux_congr data (bs.length + suffix.length + 4) suffix.length suffix
    (by omega) (by omega)]
  rfl

/-- Resolution of a bare `name` token body (no bar): the token text is
restored when the value is absent or empty. -/
theorem resolveToken_single (data : List (String × String)) (name : String)
    (hw : ∀ c ∈ name.data, c ≠ barChar ∧ c.isWhitespace = false) :
    resolveToken data name.data
      = match lookupField data name with
        | some v =>
          if v = "" then
            String.mk (lbrace :: lbrace :: name.data ++ [rbrace, rbrace])
          else v
        | none =>
          String.mk (lbrace :: lbrace :: name.data ++ [rbrace, rbrace]) := by
  unfold resolveToken
  rw [splitOnBar_no_bar name.data (fun c hc => (hw c hc).1)]
  simp only [List.map_cons, List.map_nil,
    trimChars_eq_self name.data (fun c hc => (hw c hc).2), mk_data_eq]
  cases h : lookupField data name <;> simp [h, resolveFallback]

/-- Resolution of a `name&#124;fallback` token body: the trimmed first part
is the variable and the trimmed second part the fallback. -/
theorem resolveToken_with_fallback (data : List (String × String))
    (name fb : String)
    (hnw : ∀ c ∈ name.data, c ≠ barChar ∧ c.isWhitespace = false)
    (hfw : ∀ c ∈ fb.data, c ≠ barChar ∧ c.isWhitespace = false) :
    resolveToken data (name.data ++ barChar :: fb.data)
      = match lookupField data name with
        | some v =>
          if v = "" then
            resolveFallback (some fb)
              (String.mk (lbrace :: lbrace ::
                (name.data ++ barChar :: fb.data) ++ [rbrace, rbrace]))
          else v
        | none =>
          resolveFallback (some fb)
            (String.mk (lbrace :: lbrace ::
              (name.data ++ barChar :: fb.data) ++ [rbrace, rbrace])) := by
  unfold resolveToken
  rw [splitOnBar_append name.data fb.data (fun c hc => (hnw c hc).1),
    splitOnBar_no_bar fb.data (fun c hc => (hfw c hc).1)]
  simp only [List.map_cons, List.map_nil,
    trimChars_eq_self name.data (fun c hc => (hnw c hc).2),
    trimChars_eq_self fb.data (fun c hc => (hfw c hc).2), mk_data_eq]
  cases h : lookupField data name <;> simp [h]

/-- One well-formed token rendered alone resolves through the callback. -/
theorem replaceVariables_token (data : List (String × String))
    (body : List Char) (hb : body ≠ []) (hnb : ∀ c ∈ body, c ≠ rbrace) :
    replaceVariables
        (String.mk (lbrace :: lbrace :: (body ++ rbrace :: rbrace :: []))) data
      = resolveToken data body := by
  show String.mk (rvGo data (lbrace :: lbrace :: (body ++ rbrace :: rbrace :: [])))
      = _
  rw [rvGo_token data body [] hb hnb]
  show String.mk ((resolveToken data body).data ++ []) = _
  rw [List.append_nil, mk_data_eq]

/-! ### Claim theorems -/

/-- C7 (corrected): for a well-formed token, the body is split on EVERY
vertical bar (not on the first one only): the trimmed first part is the
variable name, the trimmed second part the fallback, and any later parts
are discarded.  A present nonempty value substitutes itself; an absent or
empty value substitutes the quote-stripped fallback when one was supplied,
and otherwise leaves the original token text in place.  The three example
renderings of the specification hold, and `\x7b\x7bx|a|b\x7d\x7d` resolves
to `a` (the discarded-third-part behavior). -/
theorem C7_token_rules (data : List (String × String)) (name fb : String)
    (hname : name.data ≠ []) (hfb : fb.data ≠ [])
    (hnw : ∀ c ∈ name.data, c ≠ rbrace ∧ c ≠ barChar ∧ c.isWhitespace = false)
    (hfw : ∀ c ∈ fb.data, c ≠ rbrace ∧ c ≠ barChar ∧ c.isWhitespace = false) :
    (∀ v, lookupField data name = some v → v ≠ "" →
      replaceVariables
          (String.mk (lbrace :: lbrace :: (name.data ++ [rbrace, rbrace]))) data
        = v ∧
      replaceVariables
          (String.mk (lbrace :: lbrace ::
            ((name.data ++ barChar :: fb.data) ++ [rbrace, rbrace]))) data
        = v) ∧
    ((lookupField data name = none ∨ lookupField data name = some "") →
      replaceVariables
          (String.mk (lbrace :: lbrace :: (name.data ++ [rbrace, rbrace]))) data
        = String.mk (lbrace :: lbrace :: (name.data ++ [rbrace, rbrace])) ∧
      replaceVariables
          (String.mk (lbrace :: lbrace ::
            ((name.data ++ barChar :: fb.data) ++ [rbrace, rbrace]))) data
        = stripQuotes fb) ∧
    replaceVariables "Hi \x7b\x7bname\x7d\x7d" [("name", "Ann")] = "Hi Ann" ∧
    replaceVariables "Hi \x7b\x7bname|\x22Friend\x22\x7d\x7d"
      ([] : List (String × String)) = "Hi Friend" ∧
    replaceVariables "Hi \x7b\x7bname\x7d\x7d" ([] : List (String × String))
      = "Hi \x7b\x7bname\x7d\x7d" ∧
    replaceVariables "\x7b\x7bx|a|b\x7d\x7d" ([] : List (String × String))
      = "a" := by
  have hfb' : fb ≠ "" := fun hz => hfb (by rw [hz])
  have hn₁ : ∀ c ∈ name.data, c ≠ rbrace := fun c hc => (hnw c hc).1
  have hn₂ : ∀ c ∈ name.data, c ≠ barChar ∧ c.isWhitespace = false :=
    fun c hc => ⟨(hnw c hc).2.1, (hnw c hc).2.2⟩
  have hf₂ : ∀ c ∈ fb.data, c ≠ barChar ∧ c.isWhitespace = false :=
    fun c hc => ⟨(hfw c hc).2.1, (hfw c hc).2.2⟩
  have hbody : (name.data ++ barChar :: fb.data) ≠ [] := by
    cases hx : name.data with
    | nil => exact absurd hx hname
    | cons a t => simp [hx]
  have hbody₁ : ∀ c ∈ name.data ++ barChar :: fb.data, c ≠ rbrace := by
    intro c hc
    rcases List.mem_append.mp hc with h | h
    · exact (hnw c h).1
    · rcases List.mem_cons.mp h with rfl | h
      · decide
      · exact (hfw c h).1
  have e₁ := replaceVariables_token data name.data hname hn₁
  have e₂ := replaceVariables_token data (name.data ++ barChar :: fb.data)
    hbody hbody₁
  rw [resolveToken_single data name hn₂] at e₁
  rw [resolveToken_with_fallback data name fb hn₂ hf₂] at e₂
  refine ⟨?_, ?_, by decide, by decide, by decide, by decide⟩
  · intro v hv hne
    rw [hv] at e₁ e₂
    simp only [hne, if_neg, ite_false] at e₁ e₂
    exact ⟨e₁, e₂⟩
  · intro hcase
    rcases hcase with hv | hv <;> rw [hv] at e₁ e₂ <;>
      simp only [if_pos, ite_true] at e₁ e₂ <;>
      exact ⟨e₁, by rw [e₂]; simp [resolveFallback, hfb']⟩

/-- C7 counterexample: the claimed split on the FIRST bar would give the
fallback `a|b`, but the code splits on every bar and uses `a`. -/
theorem C7_counterexample :
    replaceVariables "\x7b\x7bx|a|b\x7d\x7d" ([] : List (String × String))
        = "a"
      ∧ ("a" : String) ≠ "a|b" := by
  decide

/-- C7 witness: concrete instantiation of the amended token rules. -/
theorem C7_witness :
    replaceVariables
        (String.mk (lbrace :: lbrace :: ("name".data ++ [rbrace, rbrace])))
        [("name", "Ann")] = "Ann" :=
  ((C7_token_rules [("name", "Ann")] "name" "Friend" (by decide) (by decide)
    (by decide) (by decide)).1 "Ann" (by decide) (by decide)).1

/-- C8 (corrected): rendering is pure, but NOT idempotent in general: a
substituted value that itself contains token syntax IS re-expanded by a
second render with the same record.  Idempotence does hold whenever the
first render&#39;s output contains no adjacent pair of left braces (a
sufficient condition only — not necessary, since an unresolvable token is
left in place and re-renders to itself). -/
theorem C8_conditional_idempotent (t : String) (r : List (String × String))
    (h : hasDoubleBrace (replaceVariables t r).data = false) :
    replaceVariables (replaceVariables t r) r = replaceVariables t r := by
  show String.mk (rvGo r (replaceVariables t r).data) = _
  rw [rvGo_no_token r _ h, mk_data_eq]

/-- C8 counterexample: with record `a = \x7b\x7bb\x7d\x7d, b = X`,
rendering `\x7b\x7ba\x7d\x7d` once gives `\x7b\x7bb\x7d\x7d`; rendering
the result again gives `X`, so the second render re-expands the token
syntax introduced by the first substitution. -/
theorem C8_counterexample :
    replaceVariables "\x7b\x7ba\x7d\x7d" dataReRender = "\x7b\x7bb\x7d\x7d"
      ∧ replaceVariables
          (replaceVariables "\x7b\x7ba\x7d\x7d" dataReRender) dataReRender
          = "X"
      ∧ ("X" : String) ≠ "\x7b\x7bb\x7d\x7d" := by
  decide

/-- C8 witness: a rendered output without token syntax re-renders to
itself. -/
theorem C8_witness :
    hasDoubleBrace
        (replaceVariables "Hi \x7b\x7bname\x7d\x7d" [("name", "Ann")]).data
        = false
      ∧ replaceVariables
          (replaceVariables "Hi \x7b\x7bname\x7d\x7d" [("name", "Ann")])
          [("name", "Ann")]
          = replaceVariables "Hi \x7b\x7bname\x7d\x7d" [("name", "Ann")] :=
  ⟨by decide, C8_conditional_idempotent "Hi \x7b\x7bname\x7d\x7d"
    [("name", "Ann")] (by decide)⟩

/-- C3 (confirmed): a submission violating any precondition (empty
recipients, more than 1000 recipients, empty/missing subject, empty/missing
htmlContent, no sender address configured) is rejected synchronously with a
validation error and the store is unchanged (no batch record created); a
submission satisfying all preconditions creates exactly the fresh
processing-status batch record with empty results and returns its id.  The
send work itself is not part of the handler (it is fired without await). -/
theorem C3_submit_validation (env : Env) (req : SendEmailRequest)
    (store : Store) (id : String) (now : Nat) :
    ((req.recipients = [] ∨ 1000 < req.recipients.length ∨ req.subject = ""
        ∨ req.htmlContent = "" ∨ fromEmailMissing (envFromEmail env) = true) →
      ∃ msg, sendHandler env req store id now
        = (.validationError msg, store)) ∧
    (¬ (req.recipients = [] ∨ 1000 < req.recipients.length ∨ req.subject = ""
        ∨ req.htmlContent = "" ∨ fromEmailMissing (envFromEmail env) = true) →
      sendHandler env req store id now
        = (.accepted id, store.set id (initialBatch now))) := by
  constructor
  · intro hbad
    simp only [sendHandler]
    split_ifs with h1 h2 h3 h4
    · exact ⟨_, rfl⟩
    · exact ⟨_, rfl⟩
    · exact ⟨_, rfl⟩
    · exact ⟨_, rfl⟩
    · exfalso
      rcases hbad with h | h | h | h | h
      · exact h1 h
      · exact h4 h
      · exact h2 (Or.inl h)
      · exact h2 (Or.inr h)
      · exact h3 h
  · intro hgood
    simp only [sendHandler]
    split_ifs with h1 h2 h3 h4
    · exact absurd (Or.inl h1) hgood
    · rcases h2 with h | h
      · exact absurd (Or.inr (Or.inr (Or.inl h))) hgood
      · exact absurd (Or.inr (Or.inr (Or.inr (Or.inl h)))) hgood
    · exact absurd (Or.inr (Or.inr (Or.inr (Or.inr h3)))) hgood
    · exact absurd (Or.inr (Or.inl h4)) hgood
    · rfl

/-- C3 witness: a concrete valid submission creates the fresh record. -/
theorem C3_witness :
    sendHandler envFixture reqFixture [] "b1" 7
      = (.accepted "b1", Store.set [] "b1" (initialBatch 7)) :=
  (C3_submit_validation envFixture reqFixture [] "b1" 7).2 (by decide)

/-- C4 (confirmed): for 1 ≤ N ≤ 1000 recipients the loop issues exactly
ceil(N/100) provider calls; the called chunks are the in-order partition of
the input (concatenating them restores the recipient list, each at most 100
long); and the event trace is exactly the calls interleaved with single
pacing delays between consecutive calls and none after the last. -/
theorem C4_chunking_pacing (recipients : List EmailRecord)
    (_h1 : 1 ≤ recipients.length) (_h2 : recipients.length ≤ 1000) :
    ((chunkTrace recipients).filter DispatchEvent.isCall).length
        = (recipients.length + 99) / 100
      ∧ chunkTrace recipients
        = List.intersperse .delay ((chunksOf recipients).map .call)
      ∧ (chunksOf recipients).flatten = recipients
      ∧ (∀ c ∈ chunksOf recipients, c.length ≤ 100) := by
  have hcalls : ∀ cs : List (List EmailRecord),
      ((List.intersperse DispatchEvent.delay
        (cs.map DispatchEvent.call)).filter DispatchEvent.isCall)
        = cs.map DispatchEvent.call := by
    intro cs
    induction cs with
    | nil => rfl
    | cons c rest ih =>
      cases rest with
      | nil => rfl
      | cons c₂ rest₂ =>
        simp only [List.map_cons, List.intersperse_cons_cons, List.filter_cons]
        simp only [List.map_cons] at ih
        simp [DispatchEvent.isCall, ih]
  have htr := chunkTrace_eq_intersperse recipients.length recipients le_rfl
  refine ⟨?_, htr, chunksOf_flatten recipients.length recipients le_rfl,
    fun c hc => chunksOf_mem_length recipients.length recipients c le_rfl hc⟩
  rw [htr, hcalls, List.length_map,
    chunksOf_length recipients.length recipients le_rfl]
  simp [BATCH_SIZE]

set_option maxRecDepth 10000 in
/-- C4 witness: the 150-recipient batch issues 2 calls with one delay. -/
theorem C4_witness :
    ((chunkTrace recips150).filter DispatchEvent.isCall).length
        = (recips150.length + 99) / 100
      ∧ chunkTrace recips150
        = List.intersperse .delay ((chunksOf recips150).map .call)
      ∧ (chunksOf recips150).flatten = recips150
      ∧ (∀ c ∈ chunksOf recips150, c.length ≤ 100) :=
  C4_chunking_pacing recips150 (by decide) (by decide)

/-- C10 (confirmed): the loop&#39;s exception handler sets only the status
field of an existing entry to failed — results, totalSent, totalFailed and
createdAt keep their previous values, and every other id reads unchanged —
and leaves the store entirely unchanged when the id is absent. -/
theorem C10_markBatchFailed_frame (store : Store) (id : String) :
    (∀ b, store.get id = some b →
        (markBatchFailed store id).get id
            = some ⟨b.results, .failed, b.totalSent, b.totalFailed, b.createdAt⟩
          ∧ ∀ id', id' ≠ id →
            (markBatchFailed store id).get id' = store.get id')
      ∧ (store.get id = none → markBatchFailed store id = store) := by
  constructor
  · intro b hb
    unfold markBatchFailed
    rw [hb]
    constructor
    · rw [Store.get_set_same]
    · intro id' hne
      exact Store.get_set_ne _ _ _ _ hne
  · intro h
    unfold markBatchFailed
    rw [h]

set_option maxRecDepth 10000 in
/-- C10 witness: failing the one stored batch flips only its status. -/
theorem C10_witness :
    (markBatchFailed storeOneBatch "b1").get "b1"
      = some ⟨[], .failed, 0, 0, 0⟩ :=
  ((C10_markBatchFailed_frame storeOneBatch "b1").1 (initialBatch 0)
    (by decide)).1

/-- C5 (confirmed): in every reachable store — at creation, after every
update, and in both terminal states — each stored batch satisfies
`totalSent + totalFailed = results.length`, and both counts are ≥ 0. -/
theorem C5_counts_invariant {s : Store} (hs : ReachableStore s) (id : String)
    (b : Batch) (h : s.get id = some b) :
    b.totalSent + b.totalFailed = b.results.length
      ∧ 0 ≤ b.totalSent ∧ 0 ≤ b.totalFailed :=
  ⟨reachable_batchInv hs id b (Store.get_mem s id b h), Nat.zero_le _,
    Nat.zero_le _⟩

set_option maxRecDepth 10000 in
/-- C5 witness: the invariant at a concrete freshly submitted batch. -/
theorem C5_witness :
    (initialBatch 7).totalSent + (initialBatch 7).totalFailed
        = (initialBatch 7).results.length
      ∧ 0 ≤ (initialBatch 7).totalSent ∧ 0 ≤ (initialBatch 7).totalFailed :=
  C5_counts_invariant
    (ReachableStore.submit envFixture reqFixture "b1" 7 ReachableStore.empty)
    "b1" (initialBatch 7) (by decide)

/-- C9 (confirmed): on every reachable store the status endpoint projects a
stored batch to its status, results and counts with
`progress = round(100 * (totalSent + totalFailed) / results.length)`
(0 for empty results), and reports not-found for an unknown id. -/
theorem C9_status_endpoint {s : Store} (hs : ReachableStore s) (id : String) :
    (∀ b, s.get id = some b →
      statusHandler s (some id)
        = .ok id b.status b.results b.totalSent b.totalFailed
            (if 0 < b.results.length then
              mathRound ((b.totalSent + b.totalFailed) * 100) b.results.length
             else 0))
      ∧ (s.get id = none →
          statusHandler s (some id) = .notFound "Batch not found or expired") := by
  constructor
  · intro b hb
    have hinv := reachable_batchInv hs id b (Store.get_mem s id b hb)
    have hall : b.results.filter
        (fun r => r.status = SendStatus.success ∨ r.status = SendStatus.failed)
        = b.results := by
      apply List.filter_eq_self.mpr
      intro r _
      cases hr : r.status <;> simp [hr]
    simp only [statusHandler, hb, hall]
    rw [batchInv] at hinv
    rw [hinv]
  · intro h
    simp only [statusHandler, h]

set_option maxRecDepth 10000 in
/-- C9 witness: the projection of a concrete freshly submitted batch. -/
theorem C9_witness :
    statusHandler (sendHandler envFixture reqFixture [] "b1" 7).2 (some "b1")
      = .ok "b1" (initialBatch 7).status (initialBatch 7).results
          (initialBatch 7).totalSent (initialBatch 7).totalFailed
          (if 0 < (initialBatch 7).results.length then
            mathRound
              (((initialBatch 7).totalSent + (initialBatch 7).totalFailed) * 100)
              (initialBatch 7).results.length
           else 0) :=
  (C9_status_endpoint
    (ReachableStore.submit envFixture reqFixture "b1" 7 ReachableStore.empty)
    "b1").1 (initialBatch 7) (by decide)

/-- The per-item loop over a response list of the same length as the chunk
produces exactly the positional outcomes and no `TypeError`. -/
theorem mapItems_eq_zipWith (emails : List EmailPayload) :
    ∀ (items : List RespItem) (i : Nat), i + items.length ≤ emails.length →
    mapItems emails items i
      = (List.zipWith itemOutcome (emails.drop i) items, false) := by
  intro items
  induction items with
  | nil =>
    intro i _
    simp [mapItems]
  | cons item rest ih =>
    intro i h
    have hi : i < emails.length := by
      simp only [List.length_cons] at h
      omega
    have he : emails[i]? = some emails[i] := List.getElem?_eq_getElem hi
    have hdrop : emails.drop i = emails[i] :: emails.drop (i + 1) :=
      List.drop_eq_getElem_cons hi
    simp only [mapItems, he, ih (i + 1)
      (by simp only [List.length_cons] at h; omega), hdrop]
    simp [List.zipWith]

/-- C6 (corrected): the normalization is per shape, not uniformly "n
outcomes".  A flat or nested list of the chunk&#39;s length yields the n
positional outcomes (outcome i is built from input message i).  A single
result object yields exactly ONE outcome (for the first message) regardless
of the chunk size — not n.  An error response (or absent data, or a
throwing call) marks all n messages failed with the top-level error
(resp. the exception message). -/
theorem C6_response_shapes (emails : List EmailPayload)
    (items : List RespItem) (item : RespItem) (d : RespData)
    (e : ErrObj) (err : Option ErrObj) (msg : String) :
    (items.length = emails.length →
      sendEmailBatch (.resp (some (.flat items)) none) emails
          = List.zipWith itemOutcome emails items
        ∧ sendEmailBatch (.resp (some (.nested items)) none) emails
          = List.zipWith itemOutcome emails items
        ∧ (List.zipWith itemOutcome emails items).length = emails.length)
      ∧ (∀ e₀ es, emails = e₀ :: es →
          sendEmailBatch (.resp (some (.single item)) none) emails
            = [itemOutcome e₀ item])
      ∧ sendEmailBatch (.resp none err) emails
          = allFailed emails (topErrorMessage err)
      ∧ sendEmailBatch (.resp (some d) (some e)) emails
          = allFailed emails (topErrorMessage (some e))
      ∧ sendEmailBatch (.throws msg) emails = allFailed emails msg := by
  refine ⟨?_, ?_, ?_, ?_, rfl⟩
  · intro hlen
    have hm := mapItems_eq_zipWith emails items 0 (by omega)
    simp only [List.drop_zero] at hm
    refine ⟨?_, ?_, ?_⟩
    · simp [sendEmailBatch, hm]
    · simp [sendEmailBatch, hm]
    · simp [List.length_zipWith, hlen]
  · intro e₀ es hcons
    subst hcons
    simp [sendEmailBatch]
  · cases err <;> rfl
  · cases d <;> rfl

set_option maxRecDepth 10000 in
/-- C6 counterexample: a single-object response for a two-message chunk
yields one outcome, not two all-failed outcomes (nor two at all). -/
theorem C6_counterexample :
    sendEmailBatch (.resp (some (.single ⟨some "mid"⟩)) none)
        [⟨"a@x", "s", "h", "t"⟩, ⟨"b@x", "s", "h", "t"⟩]
      = [⟨"a@x", .success, some "mid", none⟩]
    ∧ ([(⟨"a@x", .success, some "mid", none⟩ : EmailResult)]).length ≠ 2 := by
  decide

set_option maxRecDepth 10000 in
/-- C6 witness: a length-matched flat response yields the positional
outcomes. -/
theorem C6_witness :
    sendEmailBatch (.resp (some (.flat [⟨some "m1"⟩, ⟨some "m2"⟩])) none)
        [⟨"a@x", "s", "h", "t"⟩, ⟨"b@x", "s", "h", "t"⟩]
      = List.zipWith itemOutcome
          [⟨"a@x", "s", "h", "t"⟩, ⟨"b@x", "s", "h", "t"⟩]
          [⟨some "m1"⟩, ⟨some "m2"⟩] :=
  ((C6_response_shapes
    [⟨"a@x", "s", "h", "t"⟩, ⟨"b@x", "s", "h", "t"⟩]
    [⟨some "m1"⟩, ⟨some "m2"⟩] ⟨some "m"⟩ (.single ⟨some "m"⟩) ⟨none⟩ none
    "boom").1 (by decide)).1

/-- C1 (corrected): a provider call that throws is caught INSIDE
`sendEmailBatch`, which marks every message of that chunk failed with the
exception message; the exception never escapes the loop, so the batch ends
`completed` — with outcomes recorded for every chunk, throwing ones
included — not `failed` with only the preceding chunks&#39; outcomes. -/
theorem C1_throw_caught_completed (provider : Nat → ProviderResponse)
    (store : Store) (id : String) (recipients : List EmailRecord)
    (subject htmlContent textContent : String) (batch : Batch)
    (h : store.get id = some batch) :
    (∀ msg emails, sendEmailBatch (.throws msg) emails = allFailed emails msg)
      ∧ processBatchAsync provider store id recipients subject htmlContent
          textContent
        = store.set id
            ⟨chunkOutcomes provider subject htmlContent textContent
                ((chunksOf recipients).enum),
              .completed,
              ((chunkOutcomes provider subject htmlContent textContent
                ((chunksOf recipients).enum)).filter
                  (fun r => r.status = .success)).length,
              ((chunkOutcomes provider subject htmlContent textContent
                ((chunksOf recipients).enum)).filter
                  (fun r => r.status = .failed)).length,
              batch.createdAt⟩
      ∧ ((processBatchAsync provider store id recipients subject htmlContent
            textContent).get id).map Batch.status
          = some .completed := by
  refine ⟨fun msg emails => rfl,
    processBatchAsync_eq provider store id recipients subject htmlContent
      textContent batch h, ?_⟩
  rw [processBatchAsync_eq provider store id recipients subject htmlContent
    textContent batch h, Store.get_set_same]
  rfl

set_option maxRecDepth 10000 in
/-- C1 counterexample: 150 recipients with a stub throwing on the second
chunk end with status `completed` and 150 stored results — not status
`failed` with only the first chunk&#39;s 100 results. -/
theorem C1_counterexample :
    ((processBatchAsync providerThrowsSecond storeOneBatch "b1" recips150
        "s" "h" "").get "b1").map Batch.status = some .completed
      ∧ ((processBatchAsync providerThrowsSecond storeOneBatch "b1" recips150
          "s" "h" "").get "b1").map (fun b => b.results.length) = some 150
      ∧ some BatchStatus.completed ≠ some BatchStatus.failed
      ∧ (some 150 : Option Nat) ≠ some 100 := by
  decide

set_option maxRecDepth 10000 in
/-- C1 witness: the amended completion behavior at the concrete throwing
scenario. -/
theorem C1_witness :
    ((processBatchAsync providerThrowsSecond storeOneBatch "b1" recips150
        "s" "h" "").get "b1").map Batch.status = some .completed :=
  (C1_throw_caught_completed providerThrowsSecond storeOneBatch "b1" recips150
    "s" "h" "" (initialBatch 0) (by decide)).2.2

/-- C2 (corrected): the loop performs NO per-chunk store update: after any
prefix of the chunks, the store is exactly what it was at loop entry (the
chunk outcomes accumulate only in the loop-local list), and the only store
write is the single terminal one after the last chunk.  A concurrent status
read during processing therefore observes the original record with empty
results, never the first k chunks&#39; outcomes. -/
theorem C2_no_partial_updates (provider : Nat → ProviderResponse)
    (subject htmlContent textContent : String) (store : Store)
    (chunks : List (Nat × List EmailRecord)) (k : Nat) :
    (List.foldl (chunkStep provider subject htmlContent textContent)
        (store, []) (chunks.take k)).1 = store
      ∧ (List.foldl (chunkStep provider subject htmlContent textContent)
          (store, []) (chunks.take k)).2
        = chunkOutcomes provider subject htmlContent textContent (chunks.take k)
      ∧ (∀ id recipients batch, store.get id = some batch →
          processBatchAsync provider store id recipients subject htmlContent
              textContent
            = store.set id
                ⟨chunkOutcomes provider subject htmlContent textContent
                    ((chunksOf recipients).enum),
                  .completed,
                  ((chunkOutcomes provider subject htmlContent textContent
                    ((chunksOf recipients).enum)).filter
                      (fun r => r.status = .success)).length,
                  ((chunkOutcomes provider subject htmlContent textContent
                    ((chunksOf recipients).enum)).filter
                      (fun r => r.status = .failed)).length,
                  batch.createdAt⟩) := by
  rw [foldl_chunkStep provider subject htmlContent textContent
    (chunks.take k) store []]
  exact ⟨rfl, by simp,
    fun id recipients batch hb =>
      processBatchAsync_eq provider store id recipients subject htmlContent
        textContent batch hb⟩

set_option maxRecDepth 10000 in
/-- C2 counterexample: with 101 recipients, after the first chunk completes
the stored results are still empty (length 0), not the 100 outcomes of the
first chunk, refuting the claimed per-chunk partial update. -/
theorem C2_counterexample :
    (((List.foldl (chunkStep providerFlatFor101 "s" "h" "") (storeOneBatch, [])
        (((chunksOf recips101).enum).take 1)).1.get "b1").map
          (fun b => b.results.length)) = some 0
      ∧ ((List.foldl (chunkStep providerFlatFor101 "s" "h" "")
          (storeOneBatch, []) (((chunksOf recips101).enum).take 1)).2).length
          = 100
      ∧ (some 0 : Option Nat) ≠ some 100 := by
  decide

set_option maxRecDepth 10000 in
/-- C2 witness: the amended no-partial-update behavior at the concrete
two-chunk scenario. -/
theorem C2_witness :
    (List.foldl (chunkStep providerFlatFor101 "s" "h" "") (storeOneBatch, [])
        (((chunksOf recips101).enum).take 1)).1 = storeOneBatch
      ∧ processBatchAsync providerFlatFor101 storeOneBatch "b1" recips101
          "s" "h" ""
        = Store.set storeOneBatch "b1"
            ⟨chunkOutcomes providerFlatFor101 "s" "h" ""
                ((chunksOf recips101).enum),
              .completed,
              ((chunkOutcomes providerFlatFor101 "s" "h" ""
                ((chunksOf recips101).enum)).filter
                  (fun r => r.status = .success)).length,
              ((chunkOutcomes providerFlatFor101 "s" "h" ""
                ((chunksOf recips101).enum)).filter
                  (fun r => r.status = .failed)).length,
              (initialBatch 0).createdAt⟩ :=
  ⟨(C2_no_partial_updates providerFlatFor101 "s" "h" "" storeOneBatch
      ((chunksOf recips101).enum) 1).1,
    (C2_no_partial_updates providerFlatFor101 "s" "h" "" storeOneBatch
      ((chunksOf recips101).enum) 1).2.2 "b1" recips101 (initialBatch 0)
      (by decide)⟩

end BulkEmail
